import Mathlib

/-!
# A shallow embedding of the `dsc40graph` library

This file models the two graph containers of `dsc40graph.py`
(`UndirectedGraph` and `DirectedGraph`) and their view classes, and proves
properties about them.

Python objects are modelled as follows.

* A Python `dict` is an association list `List (α × β)`: lookup returns the
  first matching entry, item assignment replaces the value of an existing key
  in place (keeping its position) and appends a fresh key at the end, and
  `del` removes the entry.  This matches CPython's insertion-ordered
  dictionaries, including iteration order.
* A Python `set` is a `List α` that the operations keep duplicate-free:
  `add` appends the element when it is not already present, `discard` erases
  it.  Iteration order of a set is arbitrary in Python; theorems about
  iteration therefore quantify over arbitrary stores satisfying the
  duplicate-freedom invariants, so every ordering Python may produce is an
  instance.
* A raised exception is an `Except` error value: `ValueError`,
  `DoesNotExistError` (the module's own class) and the builtin `KeyError`
  escaping from a `dict` lookup are the three kinds that can escape the
  public operations.
* `_number_of_edges` is a Python `int`, hence modelled as `Int`.
-/

namespace DSC40

/-- The exception classes that can escape the library's public operations:
`ValueError`, the module's `DoesNotExistError`, and the builtin `KeyError`
raised by a bare dictionary lookup such as `self.adj[label]`. -/
inductive PyErr : Type where
  | valueError : PyErr
  | doesNotExist : PyErr
  | keyError : PyErr
deriving DecidableEq

/-- The spec's `NotFound` error kind: it covers the module's
`DoesNotExistError` and a `KeyError` coming from the underlying store
(the spec's "fails with `NotFound` (via the underlying store)"). -/
def PyErr.notFoundKind : PyErr → Bool
  | .valueError => false
  | .doesNotExist => true
  | .keyError => true

variable {α : Type} {β : Type}

instance {ε : Type} [DecidableEq ε] [DecidableEq β] :
    DecidableEq (Except ε β) := fun a b =>
  match a, b with
  | .error x, .error y =>
    if h : x = y then isTrue (by rw [h])
    else isFalse (fun hc => h (by injection hc))
  | .error _, .ok _ => isFalse (fun hc => Except.noConfusion hc)
  | .ok _, .error _ => isFalse (fun hc => Except.noConfusion hc)
  | .ok x, .ok y =>
    if h : x = y then isTrue (by rw [h])
    else isFalse (fun hc => h (by injection hc))

/-- `d[k]` lookup that returns `none` instead of raising: first matching
entry of the association list. -/
def dget? [DecidableEq α] : List (α × β) → α → Option β
  | [], _ => none
  | (k₀, v₀) :: rest, k => if k = k₀ then some v₀ else dget? rest k

/-- `k in d`. -/
def dmem [DecidableEq α] (d : List (α × β)) (k : α) : Bool :=
  (dget? d k).isSome

/-- `d[k] = v`: replace the value of an existing key in place, otherwise
append the new entry at the end (CPython dict semantics). -/
def dset [DecidableEq α] : List (α × β) → α → β → List (α × β)
  | [], k, v => [(k, v)]
  | (k₀, v₀) :: rest, k, v =>
    if k = k₀ then (k₀, v) :: rest else (k₀, v₀) :: dset rest k v

/-- `del d[k]`: drop the first entry with key `k`. -/
def derase [DecidableEq α] : List (α × β) → α → List (α × β)
  | [], _ => []
  | (k₀, v₀) :: rest, k => if k = k₀ then rest else (k₀, v₀) :: derase rest k

/-- The keys of a dict, in iteration order. -/
def dkeys (d : List (α × β)) : List α := d.map Prod.fst

/-- `d.get(k, [])`-style total lookup used to phrase adjacency membership. -/
def adjList [DecidableEq α] (d : List (α × List α)) (k : α) : List α :=
  (dget? d k).getD []

/-- Python `set.add`: append the element if absent. -/
def sadd [DecidableEq α] (s : List α) (x : α) : List α :=
  if x ∈ s then s else s ++ [x]

/-- Python `set.discard`: remove the element if present (no error). -/
def sdiscard [DecidableEq α] (s : List α) (x : α) : List α := s.erase x

/-- `class UndirectedGraph`: the adjacency store `self.adj` and the
maintained counter `self._number_of_edges`. -/
structure UndirectedGraph (α : Type) : Type where
  adj : List (α × List α)
  numberOfEdges : Int
deriving DecidableEq

/-- `class DirectedGraph`: forward store `self.adj`, reverse store
`self.back_adj`, and the maintained counter. -/
structure DirectedGraph (α : Type) : Type where
  adj : List (α × List α)
  back_adj : List (α × List α)
  numberOfEdges : Int
deriving DecidableEq

/-- `UndirectedGraph()`. -/
def UndirectedGraph.empty : UndirectedGraph α := ⟨[], 0⟩

/-- `DirectedGraph()`. -/
def DirectedGraph.empty : DirectedGraph α := ⟨[], [], 0⟩

/-- `_EdgeView`: it holds the adjacency store together with the *value* of
`_number_of_edges` captured when the view was constructed (`__init__`
binds `self._number_of_edges = number_of_edges`, a Python `int`, so later
rebindings of the graph's counter are not seen by the view). -/
structure EdgeView (α : Type) : Type where
  adj : List (α × List α)
  numberOfEdges : Int
deriving DecidableEq

/-- `_EdgeView.__contains__`: `v in self._adj[u]`, with `KeyError` caught
and turned into `False`. -/
def EdgeView.contains [DecidableEq α] (ev : EdgeView α) (e : α × α) : Bool :=
  match dget? ev.adj e.1 with
  | none => false
  | some s => decide (e.2 ∈ s)

/-- `_EdgeView.__len__`: returns the captured counter. -/
def EdgeView.len (ev : EdgeView α) : Int := ev.numberOfEdges

/-- The `edges` property of an undirected graph. -/
def UndirectedGraph.edges (g : UndirectedGraph α) : EdgeView α :=
  ⟨g.adj, g.numberOfEdges⟩

/-- The `edges` property of a directed graph. -/
def DirectedGraph.edges (g : DirectedGraph α) : EdgeView α :=
  ⟨g.adj, g.numberOfEdges⟩

/-- `_Graph.add_node` (both variants inherit it): create an empty entry in
`self.adj` when the label is absent.  It touches only `adj`. -/
def UndirectedGraph.add_node [DecidableEq α] (g : UndirectedGraph α)
    (label : α) : UndirectedGraph α :=
  if dmem g.adj label then g else { g with adj := dset g.adj label [] }

/-- `_Graph.add_node` as inherited by `DirectedGraph`: it is the base-class
method, so it creates an entry in `self.adj` only — `self.back_adj` is not
touched. -/
def DirectedGraph.add_node [DecidableEq α] (g : DirectedGraph α)
    (label : α) : DirectedGraph α :=
  if dmem g.adj label then g else { g with adj := dset g.adj label [] }

/-- `_Graph.arbitrary_node`: first node of the insertion-ordered store, or
`DoesNotExistError` on an empty graph. -/
def UndirectedGraph.arbitrary_node (g : UndirectedGraph α) : Except PyErr α :=
  match g.adj with
  | [] => .error .doesNotExist
  | (k, _) :: _ => .ok k

/-- `_Graph.arbitrary_node` for the directed variant. -/
def DirectedGraph.arbitrary_node (g : DirectedGraph α) : Except PyErr α :=
  match g.adj with
  | [] => .error .doesNotExist
  | (k, _) :: _ => .ok k

/-- One pass of the loop `for x in {u_label, v_label}: if x not in self.adj:
self.adj[x] = set()`.  The loop body only creates the missing key `x`, so
running it for `u` then for `v` models every iteration order of the Python
set literal (and the single iteration when `u == v`, as the second pass is
then a no-op). -/
def ensureNode [DecidableEq α] (d : List (α × List α)) (x : α) :
    List (α × List α) :=
  if dmem d x then d else dset d x []

/-- `UndirectedGraph.add_edge`: reject self-loops with `ValueError`, create
missing endpoint nodes, then insert the edge in both directions and bump
the counter only when `(u, v)` is not already in the edge view. -/
def UndirectedGraph.add_edge [DecidableEq α] (g : UndirectedGraph α)
    (u v : α) : Except PyErr (UndirectedGraph α) :=
  if u = v then .error .valueError
  else
    let adj₂ := ensureNode (ensureNode g.adj u) v
    if (EdgeView.contains ⟨adj₂, 0⟩ (u, v)) then
      .ok { g with adj := adj₂ }
    else
      let adj₃ := dset adj₂ u (sadd (adjList adj₂ u) v)
      let adj₄ := dset adj₃ v (sadd (adjList adj₃ v) u)
      .ok ⟨adj₄, g.numberOfEdges + 1⟩

/-- The loop `for w in S: self.adj[w].discard(label); self._number_of_edges -= 1`
shared by both `remove_node` methods; a missing key `w` raises `KeyError`. -/
def discardLoop [DecidableEq α] (label : α) :
    List α → List (α × List α) → Int → Except PyErr (List (α × List α) × Int)
  | [], adj, n => .ok (adj, n)
  | w :: rest, adj, n =>
    match dget? adj w with
    | none => .error .keyError
    | some s => discardLoop label rest (dset adj w (s.erase label)) (n - 1)

/-- `UndirectedGraph.remove_node`: `DoesNotExistError` when the label is
absent; otherwise discard the label from every neighbor's set, decrementing
the counter once per neighbor, then delete the label's entry. -/
def UndirectedGraph.remove_node [DecidableEq α] (g : UndirectedGraph α)
    (label : α) : Except PyErr (UndirectedGraph α) :=
  match dget? g.adj label with
  | none => .error .doesNotExist
  | some neighbors =>
    match discardLoop label neighbors g.adj g.numberOfEdges with
    | .error e => .error e
    | .ok (adj', n') => .ok ⟨derase adj' label, n'⟩

/-- `UndirectedGraph.remove_edge`: `DoesNotExistError` when the edge is not
in the edge view; otherwise discard both directions and decrement. -/
def UndirectedGraph.remove_edge [DecidableEq α] (g : UndirectedGraph α)
    (u v : α) : Except PyErr (UndirectedGraph α) :=
  if (g.edges.contains (u, v)) = false then .error .doesNotExist
  else
    let adj₁ := dset g.adj u ((adjList g.adj u).erase v)
    match dget? adj₁ v with
    | none => .error .keyError
    | some s => .ok ⟨dset adj₁ v (s.erase u), g.numberOfEdges - 1⟩

/-- `UndirectedGraph.neighbors`: the bare lookup `self.adj[label]`, which
raises `KeyError` on a missing label. -/
def UndirectedGraph.neighbors [DecidableEq α] (g : UndirectedGraph α)
    (label : α) : Except PyErr (List α) :=
  match dget? g.adj label with
  | none => .error .keyError
  | some s => .ok s

/-- `DirectedGraph.add_edge`: ensure both endpoints have entries in `adj`
and `back_adj`, then insert `v` into `adj[u]`, `u` into `back_adj[v]`, and
increment the counter — with no membership check, so the counter is
incremented even when the edge already exists. -/
def DirectedGraph.add_edge [DecidableEq α] (g : DirectedGraph α)
    (u v : α) : DirectedGraph α :=
  let adj₂ := ensureNode (ensureNode g.adj u) v
  let back₂ := ensureNode (ensureNode g.back_adj u) v
  ⟨dset adj₂ u (sadd (adjList adj₂ u) v),
   dset back₂ v (sadd (adjList back₂ v) u),
   g.numberOfEdges + 1⟩

/-- `DirectedGraph.remove_node`: check `label in self.nodes`, then read
`self.back_adj[label]` (a bare lookup that can raise `KeyError`), handle a
self-loop once, discard the label from every remaining predecessor's
successor set, subtract the number of remaining successors, and finally
delete the label's entry from `adj` — `back_adj` keeps its entry. -/
def DirectedGraph.remove_node [DecidableEq α] (g : DirectedGraph α)
    (label : α) : Except PyErr (DirectedGraph α) :=
  if dmem g.adj label = false then .error .doesNotExist
  else
    match dget? g.back_adj label with
    | none => .error .keyError
    | some preds₀ =>
      let hasLoop : Bool := decide (label ∈ preds₀)
      let adj₁ := if hasLoop then
          dset g.adj label ((adjList g.adj label).erase label) else g.adj
      let back₁ := if hasLoop then
          dset g.back_adj label (preds₀.erase label) else g.back_adj
      let n₁ := if hasLoop then g.numberOfEdges - 1 else g.numberOfEdges
      let preds₁ := if hasLoop then preds₀.erase label else preds₀
      match discardLoop label preds₁ adj₁ n₁ with
      | .error e => .error e
      | .ok (adj₂, n₂) =>
        let n₃ := n₂ - (adjList adj₂ label).length
        .ok ⟨derase adj₂ label, back₁, n₃⟩

/-- `DirectedGraph.remove_edge`: `DoesNotExistError` when the edge is not in
the edge view; otherwise discard `v` from `adj[u]` and `u` from
`back_adj[v]` and decrement. -/
def DirectedGraph.remove_edge [DecidableEq α] (g : DirectedGraph α)
    (u v : α) : Except PyErr (DirectedGraph α) :=
  if (g.edges.contains (u, v)) = false then .error .doesNotExist
  else
    let adj₁ := dset g.adj u ((adjList g.adj u).erase v)
    match dget? g.back_adj v with
    | none => .error .keyError
    | some s => .ok ⟨adj₁, dset g.back_adj v (s.erase u), g.numberOfEdges - 1⟩

/-- `DirectedGraph.successors`: the bare lookup `self.adj[label]`. -/
def DirectedGraph.successors [DecidableEq α] (g : DirectedGraph α)
    (label : α) : Except PyErr (List α) :=
  match dget? g.adj label with
  | none => .error .keyError
  | some s => .ok s

/-- `DirectedGraph.predecessors`: the bare lookup `self.back_adj[label]`. -/
def DirectedGraph.predecessors [DecidableEq α] (g : DirectedGraph α)
    (label : α) : Except PyErr (List α) :=
  match dget? g.back_adj label with
  | none => .error .keyError
  | some s => .ok s

/-- `DirectedGraph.neighbors`: alias of `successors`. -/
def DirectedGraph.neighbors [DecidableEq α] (g : DirectedGraph α)
    (label : α) : Except PyErr (List α) :=
  g.successors label

/-- Inner loop of `_UndirectedEdgeView.__iter__`: walk one node's neighbor
set, yielding `(u, v)` when `frozenset((u, v))` has not been seen, and
threading the `seen` set through. -/
def undirectedIterInner [DecidableEq α] (u : α) :
    List α → Finset (Sym2 α) → List (α × α) × Finset (Sym2 α)
  | [], seen => ([], seen)
  | v :: vs, seen =>
    if Sym2.mk (u, v) ∈ seen then undirectedIterInner u vs seen
    else
      let r := undirectedIterInner u vs (insert (Sym2.mk (u, v)) seen)
      ((u, v) :: r.1, r.2)

/-- Outer loop of `_UndirectedEdgeView.__iter__` over the store's entries. -/
def undirectedIterGo [DecidableEq α] :
    List (α × List α) → Finset (Sym2 α) → List (α × α)
  | [], _ => []
  | (u, ns) :: rest, seen =>
    let r := undirectedIterInner u ns seen
    r.1 ++ undirectedIterGo rest r.2

/-- `_UndirectedEdgeView.__iter__`: the full sequence of yielded pairs. -/
def EdgeView.undirectedIter [DecidableEq α] (ev : EdgeView α) : List (α × α) :=
  undirectedIterGo ev.adj ∅

/-- `_DirectedEdgeView.__iter__`: yield `(u, v)` for every entry `u` of the
store and every `v` in its successor set. -/
def EdgeView.directedIter (ev : EdgeView α) : List (α × α) :=
  (ev.adj.map (fun p => p.2.map (fun v => (p.1, v)))).flatten

/-- Executable form of the undirected symmetry invariant
`v ∈ adj[u] → u ∈ adj[v]` (the spec's data-model invariant for
`UndirectedGraph`), checked entry by entry. -/
def symmB [DecidableEq α] (adj : List (α × List α)) : Bool :=
  adj.all fun p => p.2.all fun v => decide (p.1 ∈ adjList adj v)

/-- Executable form of the directed forward/reverse consistency invariant
`v ∈ adj[u] ⟺ u ∈ back_adj[v]` (the spec's data-model invariant for
`DirectedGraph`), checked entry by entry in both directions. -/
def consistentB [DecidableEq α] (adj back : List (α × List α)) : Bool :=
  (adj.all fun p => p.2.all fun v => decide (p.1 ∈ adjList back v)) &&
  (back.all fun p => p.2.all fun v => decide (p.1 ∈ adjList adj v))

/-- The set of ordered edges of a directed store that are incident to `x`:
the in-edges `(u, x)` from other nodes together with the out-edges
`(x, w)` (which include the self-loop `(x, x)` exactly once, since this is
a set). -/
def incidentEdges [DecidableEq α] (adj : List (α × List α)) (x : α) :
    Finset (α × α) :=
  ((dkeys adj).toFinset.filter
      (fun u => u ≠ x ∧ x ∈ adjList adj u)).image (fun u => (u, x)) ∪
    (adjList adj x).toFinset.image (fun w => (x, w))

/-- The directed graph of the spec's self-loop removal scenario: edges
`(1,3), (3,1), (5,1), (1,6), (1,1)` added in that order. -/
def loopScenario : DirectedGraph Nat :=
  (((((DirectedGraph.empty).add_edge 1 3).add_edge 3 1).add_edge 5 1).add_edge
      1 6).add_edge 1 1

/-! ## Basic lemmas about the dict and set models -/

theorem dget?_dset_self [DecidableEq α] (d : List (α × β)) (k : α) (v : β) :
    dget? (dset d k v) k = some v := by
  induction d with
  | nil => simp [dset, dget?]
  | cons p rest ih =>
    by_cases h : k = p.1
    · simp [dset, h, dget?]
    · simp [dset, h, dget?, ih]

theorem dget?_dset_ne [DecidableEq α] (d : List (α × β)) (k k' : α) (v : β)
    (h : k' ≠ k) : dget? (dset d k v) k' = dget? d k' := by
  induction d with
  | nil => simp [dset, dget?, h]
  | cons p rest ih =>
    by_cases hk : k = p.1
    · subst hk
      simp [dset, dget?, h]
    · by_cases hk' : k' = p.1
      · simp [dset, hk, dget?, hk']
      · simp [dset, hk, dget?, hk', ih]

theorem adjList_dset_self [DecidableEq α] (d : List (α × List α)) (k : α)
    (s : List α) : adjList (dset d k s) k = s := by
  simp [adjList, dget?_dset_self]

theorem adjList_dset_ne [DecidableEq α] (d : List (α × List α)) (k k' : α)
    (s : List α) (h : k' ≠ k) : adjList (dset d k s) k' = adjList d k' := by
  simp [adjList, dget?_dset_ne _ _ _ _ h]

theorem dmem_false_iff [DecidableEq α] (d : List (α × β)) (k : α) :
    dmem d k = false ↔ dget? d k = none := by
  simp [dmem, Option.isSome]
  cases h : dget? d k <;> simp_all

theorem dmem_true_iff [DecidableEq α] (d : List (α × β)) (k : α) :
    dmem d k = true ↔ ∃ v, dget? d k = some v := by
  simp [dmem, Option.isSome]
  cases h : dget? d k <;> simp_all

theorem dget?_mem [DecidableEq α] (d : List (α × β)) (k : α) (v : β)
    (h : dget? d k = some v) : (k, v) ∈ d := by
  induction d with
  | nil => simp [dget?] at h
  | cons p rest ih =>
    by_cases hk : k = p.1
    · simp [dget?, hk] at h
      subst hk
      simp [← h]
    · simp [dget?, hk] at h
      exact List.mem_cons_of_mem _ (ih h)

theorem mem_adjList_dmem [DecidableEq α] (d : List (α × List α)) (k v : α)
    (h : v ∈ adjList d k) : dmem d k = true := by
  rw [dmem_true_iff]
  cases hd : dget? d k with
  | none => simp [adjList, hd] at h
  | some s => exact ⟨s, rfl⟩

theorem dget?_eq_some_adjList [DecidableEq α] (d : List (α × List α)) (k v : α)
    (h : v ∈ adjList d k) : dget? d k = some (adjList d k) := by
  cases hd : dget? d k with
  | none => simp [adjList, hd] at h
  | some s => simp [adjList, hd]

theorem adjList_of_not_dmem [DecidableEq α] (d : List (α × List α)) (k : α)
    (h : dmem d k = false) : adjList d k = [] := by
  rw [dmem_false_iff] at h
  simp [adjList, h]

theorem dkeys_dset_of_dmem [DecidableEq α] (d : List (α × β)) (k : α) (v : β)
    (h : dmem d k = true) : dkeys (dset d k v) = dkeys d := by
  induction d with
  | nil => simp [dmem, dget?] at h
  | cons p rest ih =>
    by_cases hk : k = p.1
    · simp [dset, hk, dkeys]
    · simp [dmem, dget?, hk] at h
      simp [dset, hk, dkeys] at ih ⊢
      exact ih h

theorem dmem_dset [DecidableEq α] (d : List (α × β)) (k k' : α) (v : β) :
    dmem (dset d k v) k' = (dmem d k' || decide (k' = k)) := by
  by_cases h : k' = k
  · subst h
    simp [dmem, dget?_dset_self]
  · simp [dmem, dget?_dset_ne _ _ _ _ h, h]

theorem contains_eq_adjList [DecidableEq α] (adj : List (α × List α)) (n : Int)
    (u v : α) :
    EdgeView.contains ⟨adj, n⟩ (u, v) = decide (v ∈ adjList adj u) := by
  cases h : dget? adj u with
  | none => simp [EdgeView.contains, h, adjList]
  | some s => simp [EdgeView.contains, h, adjList]

theorem mem_sadd [DecidableEq α] (s : List α) (x y : α) :
    y ∈ sadd s x ↔ y ∈ s ∨ y = x := by
  by_cases h : x ∈ s
  · simp [sadd, h]
    intro hy
    subst hy
    exact h
  · simp [sadd, h]

theorem length_sadd_of_not_mem [DecidableEq α] (s : List α) (x : α)
    (h : x ∉ s) : (sadd s x).length = s.length + 1 := by
  simp [sadd, h]

theorem adjList_ensureNode [DecidableEq α] (d : List (α × List α)) (k k' : α) :
    adjList (ensureNode d k) k' = adjList d k' := by
  by_cases h : dmem d k
  · simp [ensureNode, h]
  · by_cases hk : k' = k
    · subst hk
      simp only [ensureNode, h]
      rw [if_neg (by simp [h]), adjList_dset_self,
        adjList_of_not_dmem _ _ (by simp [h] : dmem d k' = false)]
    · simp only [ensureNode]
      rw [if_neg (by simp [h]), adjList_dset_ne _ _ _ _ hk]

theorem dmem_ensureNode [DecidableEq α] (d : List (α × List α)) (k k' : α) :
    dmem (ensureNode d k) k' = (dmem d k' || decide (k' = k)) := by
  by_cases h : dmem d k
  · simp only [ensureNode, h, if_true]
    by_cases hk : k' = k
    · subst hk
      simp [h]
    · simp [hk]
  · simp only [ensureNode, h, Bool.false_eq_true, if_false]
    exact dmem_dset d k k' []

theorem contains_ensure [DecidableEq α] (adj : List (α × List α))
    (n m : Int) (u v a b : α) :
    EdgeView.contains ⟨ensureNode (ensureNode adj a) b, n⟩ (u, v) =
      EdgeView.contains ⟨adj, m⟩ (u, v) := by
  rw [contains_eq_adjList, contains_eq_adjList, adjList_ensureNode,
    adjList_ensureNode]

/-! ## Claim theorems -/

/-- Claim C1: evaluation of the code at the failing input.  On a directed
graph, adding the edge `(1, 2)` twice leaves the maintained counter at `2`
even though the graph has exactly one distinct edge — `add_edge` increments
`_number_of_edges` unconditionally, so a duplicate add overcounts,
contradicting the claim (and the method's own docstring "If the edge
already exists, nothing is done"). -/
theorem duplicate_directed_add_edge_overcounts :
    (((DirectedGraph.empty : DirectedGraph Nat).add_edge 1 2).add_edge
        1 2).numberOfEdges = 2 ∧
    (((DirectedGraph.empty : DirectedGraph Nat).add_edge 1 2).add_edge
        1 2).edges.directedIter = [(1, 2)] := by
  decide

/-- Claim C2: evaluation of the code at the failing input.  After
`add_edge(1, 2); remove_node(1)` on a directed graph, `back_adj` still has
an entry for the removed label `1` and `1` is still in `back_adj[2]` — the
forward/reverse consistency invariant is broken (`1 ∈ back_adj[2]` while
`adj[1]` no longer exists), and the stale predecessor entry then makes the
legitimate call `remove_node(2)` raise `KeyError`. -/
theorem directed_remove_node_leaves_back_adj :
    ((DirectedGraph.empty : DirectedGraph Nat).add_edge 1 2).remove_node 1 =
      .ok ⟨[(2, [])], [(1, []), (2, [1])], 0⟩ ∧
    dmem ([(1, ([] : List Nat)), (2, [1])]) 1 = true ∧
    (1 : Nat) ∈ adjList [(1, []), (2, [1])] 2 ∧
    (DirectedGraph.mk [(2, [])] [(1, []), (2, [1])] 0).remove_node 2 =
      .error PyErr.keyError := by
  decide

/-- Claim C3: evaluation of the code at the failing input.  `add_node` is the
base-class method and only creates an entry in `adj`, so on a directed graph
`add_node(1)` leaves `back_adj` without an entry for `1`; the node is then
unremovable (`remove_node(1)` raises `KeyError` from the bare
`self.back_adj[label]` lookup) and `predecessors(1)` also raises `KeyError`,
contradicting the claim that every node has entries in both mappings. -/
theorem directed_add_node_skips_back_adj :
    dmem ((DirectedGraph.empty : DirectedGraph Nat).add_node 1).adj 1 = true ∧
    dmem ((DirectedGraph.empty : DirectedGraph Nat).add_node 1).back_adj 1 =
      false ∧
    ((DirectedGraph.empty : DirectedGraph Nat).add_node 1).remove_node 1 =
      .error PyErr.keyError ∧
    ((DirectedGraph.empty : DirectedGraph Nat).add_node 1).predecessors 1 =
      .error PyErr.keyError := by
  decide

/-- Claim C4, counterexample.  An edges view captures the value of the
`_number_of_edges` counter at construction time (`__init__` stores the
Python `int` by value), so a view obtained before a mutation reports a
stale count: on the empty undirected graph the view's `len` is `0`, while
after `add_edge(1, 2)` the current edge count is `1`. -/
theorem stale_view_count_counterexample :
    (UndirectedGraph.empty : UndirectedGraph Nat).add_edge 1 2 =
      .ok ⟨[(1, [2]), (2, [1])], 1⟩ ∧
    ¬ ((UndirectedGraph.empty : UndirectedGraph Nat).edges).len =
        ((UndirectedGraph.mk [(1, [2]), (2, [1])] 1).edges).len := by
  decide

theorem discardLoop_error_kind [DecidableEq α] (x : α) (ps : List α)
    (adj : List (α × List α)) (n : Int) (e : PyErr)
    (h : discardLoop x ps adj n = .error e) : e = .keyError := by
  induction ps generalizing adj n with
  | nil => simp [discardLoop] at h
  | cons p rest ih =>
    cases hd : dget? adj p with
    | none =>
      simp [discardLoop, hd] at h
      exact h.symm
    | some s =>
      simp only [discardLoop, hd] at h
      exact ih _ _ h

/-- Claim C10: edge-view membership is total over the label space.  The
query `(u, v) in edges` is a total Boolean function in the embedding
(mirroring the `try/except KeyError: return False` of
`_EdgeView.__contains__`), and when `u` is not a node of the graph — in
either variant — it returns `false`. -/
theorem edge_membership_total [DecidableEq α] (g : UndirectedGraph α)
    (dg : DirectedGraph α) (u v : α)
    (hu : dmem g.adj u = false) (hdu : dmem dg.adj u = false) :
    g.edges.contains (u, v) = false ∧ dg.edges.contains (u, v) = false := by
  rw [dmem_false_iff] at hu hdu
  constructor
  · simp [UndirectedGraph.edges, EdgeView.contains, hu]
  · simp [DirectedGraph.edges, EdgeView.contains, hdu]

/-- Witness for C10 at a concrete input: label `7` is absent from both
graphs, and the membership query returns `false` instead of failing. -/
theorem edge_membership_total_witness :
    dmem ([(1, [2]), (2, [1])] : List (Nat × List Nat)) 7 = false ∧
    dmem ([(1, [2])] : List (Nat × List Nat)) 7 = false ∧
    (UndirectedGraph.mk [(1, [2]), (2, [1])] 1).edges.contains (7, 1) =
        false ∧
    (DirectedGraph.mk [(1, [2])] [(2, [1])] 1).edges.contains (7, 1) =
        false := by
  refine ⟨by decide, by decide, ?_⟩
  have h := edge_membership_total (UndirectedGraph.mk [(1, [2]), (2, [1])] 1)
    (DirectedGraph.mk [(1, [2])] [(2, [1])] 1) 7 1 (by decide) (by decide)
  exact h

/-- Supporting result about the `NotFound` error paths (not the full C9
claim): removal of a missing node or edge and `arbitrary_node` on an empty
graph fail with `DoesNotExistError`, and a neighbors/successors/
predecessors lookup on a label absent from the *consulted store* fails with
that store's `KeyError` — in every case before any mutation.  Note the
`predecessors` conjunct is conditioned on the label being absent from
`back_adj`; because `remove_node` leaves stale `back_adj` entries behind,
this is weaker than "absent node", and the C9 claim itself fails there. -/
theorem missing_reference_fails_not_found [DecidableEq α]
    (g g₀ : UndirectedGraph α) (dg dg₀ : DirectedGraph α) (x u v : α)
    (hx : dmem g.adj x = false)
    (he : g.edges.contains (u, v) = false)
    (hdx : dmem dg.adj x = false)
    (hde : dg.edges.contains (u, v) = false)
    (hbx : dmem dg.back_adj x = false)
    (h₀ : g₀.adj = [])
    (hd₀ : dg₀.adj = []) :
    g.remove_node x = .error .doesNotExist ∧
    g.remove_edge u v = .error .doesNotExist ∧
    g.neighbors x = .error .keyError ∧
    g₀.arbitrary_node = .error .doesNotExist ∧
    dg.remove_node x = .error .doesNotExist ∧
    dg.remove_edge u v = .error .doesNotExist ∧
    dg.successors x = .error .keyError ∧
    dg.neighbors x = .error .keyError ∧
    dg.predecessors x = .error .keyError ∧
    dg₀.arbitrary_node = .error .doesNotExist ∧
    PyErr.doesNotExist.notFoundKind = true ∧
    PyErr.keyError.notFoundKind = true := by
  have hx' := (dmem_false_iff _ _).mp hx
  have hbx' := (dmem_false_iff _ _).mp hbx
  refine ⟨?_, ?_, ?_, ?_, ?_, ?_, ?_, ?_, ?_, ?_, rfl, rfl⟩
  · simp [UndirectedGraph.remove_node, hx']
  · simp [UndirectedGraph.remove_edge, he]
  · simp [UndirectedGraph.neighbors, hx']
  · simp [UndirectedGraph.arbitrary_node, h₀]
  · simp [DirectedGraph.remove_node, hdx]
  · simp [DirectedGraph.remove_edge, hde]
  · simp [DirectedGraph.successors, (dmem_false_iff _ _).mp hdx]
  · simp [DirectedGraph.neighbors, DirectedGraph.successors,
      (dmem_false_iff _ _).mp hdx]
  · simp [DirectedGraph.predecessors, hbx']
  · simp [DirectedGraph.arbitrary_node, hd₀]

/-- Concrete instance of the supporting `NotFound` result: label `9` and
edge `(1, 9)` are absent from every consulted store, and every listed
operation fails with a `NotFound`-kind error. -/
theorem missing_reference_fails_not_found_witness :
    dmem ([(1, [2]), (2, [1])] : List (Nat × List Nat)) 9 = false ∧
    (UndirectedGraph.mk [(1, [2]), (2, [1])] 1).edges.contains (1, 9) =
        false ∧
    ((UndirectedGraph.mk [(1, [2]), (2, [1])] 1).remove_node 9 =
        .error .doesNotExist ∧
      (UndirectedGraph.mk [(1, [2]), (2, [1])] 1).remove_edge 1 9 =
        .error .doesNotExist ∧
      (UndirectedGraph.mk [(1, [2]), (2, [1])] 1).neighbors 9 =
        .error .keyError ∧
      (UndirectedGraph.empty : UndirectedGraph Nat).arbitrary_node =
        .error .doesNotExist ∧
      (DirectedGraph.mk [(1, [2])] [(2, [1])] 1).remove_node 9 =
        .error .doesNotExist ∧
      (DirectedGraph.mk [(1, [2])] [(2, [1])] 1).remove_edge 1 9 =
        .error .doesNotExist ∧
      (DirectedGraph.mk [(1, [2])] [(2, [1])] 1).successors 9 =
        .error .keyError ∧
      (DirectedGraph.mk [(1, [2])] [(2, [1])] 1).neighbors 9 =
        .error .keyError ∧
      (DirectedGraph.mk [(1, [2])] [(2, [1])] 1).predecessors 9 =
        .error .keyError ∧
      (DirectedGraph.empty : DirectedGraph Nat).arbitrary_node =
        .error .doesNotExist ∧
      PyErr.doesNotExist.notFoundKind = true ∧
      PyErr.keyError.notFoundKind = true) := by
  refine ⟨by decide, by decide, ?_⟩
  exact missing_reference_fails_not_found
    (UndirectedGraph.mk [(1, [2]), (2, [1])] 1) UndirectedGraph.empty
    (DirectedGraph.mk [(1, [2])] [(2, [1])] 1) DirectedGraph.empty 9 1 9
    (by decide) (by decide) (by decide) (by decide) (by decide) (by decide)
    (by decide)

/-- Claim C9: evaluation of the code at the failing input.  In the
API-reachable state after `add_edge(1, 2); remove_node(1)` on a directed
graph, label `1` is no longer a node (`adj` has no entry for it), yet
`predecessors(1)` succeeds and returns an empty set instead of failing with
a `NotFound`-kind error: `remove_node` left the stale `back_adj[1]` entry
behind, so the bare `self.back_adj[label]` lookup does not raise.  The
claim — every lookup of an absent label fails with `NotFound`, which is
what the spec prescribes for `predecessors` — is therefore violated by the
code, through the same slip as C2. -/
theorem predecessors_succeeds_on_absent_label :
    ((DirectedGraph.empty : DirectedGraph Nat).add_edge 1 2).remove_node 1 =
      .ok ⟨[(2, [])], [(1, []), (2, [1])], 0⟩ ∧
    dmem ([(2, ([] : List Nat))]) 1 = false ∧
    (DirectedGraph.mk [(2, [])] [(1, []), (2, [1])] 0).predecessors 1 =
      .ok [] := by
  decide

/-- Claim C8: on an undirected graph, `add_edge(x, x)` always fails with the
`InvalidArgument` kind (the `ValueError` raised by the very first statement
of the method, before any mutation), a non-self-loop `add_edge` always
succeeds, and no other public operation of either variant can produce a
`ValueError` — so `InvalidArgument` arises in no other situation
(`DirectedGraph.add_edge` is total and raises nothing at all). -/
theorem invalid_argument_only_for_self_loop [DecidableEq α]
    (g : UndirectedGraph α) (dg : DirectedGraph α) (x y u v : α)
    (huv : u ≠ v) :
    g.add_edge x x = .error .valueError ∧
    (∃ g', g.add_edge u v = .ok g') ∧
    g.remove_node x ≠ .error .valueError ∧
    g.remove_edge x y ≠ .error .valueError ∧
    g.neighbors x ≠ .error .valueError ∧
    g.arbitrary_node ≠ .error .valueError ∧
    dg.remove_node x ≠ .error .valueError ∧
    dg.remove_edge x y ≠ .error .valueError ∧
    dg.successors x ≠ .error .valueError ∧
    dg.predecessors x ≠ .error .valueError ∧
    dg.neighbors x ≠ .error .valueError ∧
    dg.arbitrary_node ≠ .error .valueError := by
  refine ⟨by simp [UndirectedGraph.add_edge], ?_, ?_, ?_, ?_, ?_, ?_, ?_,
    ?_, ?_, ?_, ?_⟩
  · simp only [UndirectedGraph.add_edge, huv, if_false]
    split
    · exact ⟨_, rfl⟩
    · exact ⟨_, rfl⟩
  · cases hd : dget? g.adj x with
    | none => simp [UndirectedGraph.remove_node, hd]
    | some s =>
      simp only [UndirectedGraph.remove_node, hd]
      cases hl : discardLoop x s g.adj g.numberOfEdges with
      | error e =>
        have := discardLoop_error_kind _ _ _ _ _ hl
        subst this
        simp
      | ok p => simp
  · simp only [UndirectedGraph.remove_edge]
    split
    · simp
    · cases hd : dget? (dset g.adj x ((adjList g.adj x).erase y)) y <;> simp
  · cases hd : dget? g.adj x <;> simp [UndirectedGraph.neighbors, hd]
  · cases h : g.adj with
    | nil => simp [UndirectedGraph.arbitrary_node, h]
    | cons p rest => simp [UndirectedGraph.arbitrary_node, h]
  · simp only [DirectedGraph.remove_node]
    split
    · simp
    · cases hb : dget? dg.back_adj x with
      | none => simp
      | some preds =>
        simp only
        split
        · rename_i e heq
          have := discardLoop_error_kind _ _ _ _ _ heq
          subst this
          simp
        · simp
  · simp only [DirectedGraph.remove_edge]
    split
    · simp
    · cases hd : dget? dg.back_adj y <;> simp
  · cases hd : dget? dg.adj x <;> simp [DirectedGraph.successors, hd]
  · cases hd : dget? dg.back_adj x <;> simp [DirectedGraph.predecessors, hd]
  · cases hd : dget? dg.adj x <;>
      simp [DirectedGraph.neighbors, DirectedGraph.successors, hd]
  · cases h : dg.adj with
    | nil => simp [DirectedGraph.arbitrary_node, h]
    | cons p rest => simp [DirectedGraph.arbitrary_node, h]

/-- Witness for C8 at a concrete input: `add_edge(3, 3)` fails with
`ValueError` and `add_edge(1, 2)` succeeds on the empty undirected graph,
while no other operation produces a `ValueError`. -/
theorem invalid_argument_only_for_self_loop_witness :
    (1 : Nat) ≠ 2 ∧
    ((UndirectedGraph.empty : UndirectedGraph Nat).add_edge 3 3 =
        .error .valueError ∧
      (∃ g', (UndirectedGraph.empty : UndirectedGraph Nat).add_edge 1 2 =
        .ok g') ∧
      (UndirectedGraph.empty : UndirectedGraph Nat).remove_node 3 ≠
        .error .valueError ∧
      (UndirectedGraph.empty : UndirectedGraph Nat).remove_edge 3 4 ≠
        .error .valueError ∧
      (UndirectedGraph.empty : UndirectedGraph Nat).neighbors 3 ≠
        .error .valueError ∧
      (UndirectedGraph.empty : UndirectedGraph Nat).arbitrary_node ≠
        .error .valueError ∧
      (DirectedGraph.empty : DirectedGraph Nat).remove_node 3 ≠
        .error .valueError ∧
      (DirectedGraph.empty : DirectedGraph Nat).remove_edge 3 4 ≠
        .error .valueError ∧
      (DirectedGraph.empty : DirectedGraph Nat).successors 3 ≠
        .error .valueError ∧
      (DirectedGraph.empty : DirectedGraph Nat).predecessors 3 ≠
        .error .valueError ∧
      (DirectedGraph.empty : DirectedGraph Nat).neighbors 3 ≠
        .error .valueError ∧
      (DirectedGraph.empty : DirectedGraph Nat).arbitrary_node ≠
        .error .valueError) := by
  refine ⟨by decide, ?_⟩
  exact invalid_argument_only_for_self_loop UndirectedGraph.empty
    DirectedGraph.empty 3 4 1 2 (by decide)

theorem symmB_spec [DecidableEq α] (adj : List (α × List α))
    (h : symmB adj = true) (u v : α) (hm : v ∈ adjList adj u) :
    u ∈ adjList adj v := by
  have hd := dget?_eq_some_adjList adj u v hm
  have hmem := dget?_mem _ _ _ hd
  simp only [symmB, List.all_eq_true, decide_eq_true_eq] at h
  exact h _ hmem v hm

theorem add_edge_of_present [DecidableEq α] (g : UndirectedGraph α) (u v : α)
    (hne : u ≠ v) (huv : v ∈ adjList g.adj u) (hvu : u ∈ adjList g.adj v) :
    g.add_edge u v = .ok g := by
  have hdu : dmem g.adj u = true := mem_adjList_dmem _ _ _ huv
  have hdv : dmem g.adj v = true := mem_adjList_dmem _ _ _ hvu
  have hens : ensureNode (ensureNode g.adj u) v = g.adj := by
    simp [ensureNode, hdu, hdv]
  have hc : EdgeView.contains ⟨g.adj, 0⟩ (u, v) = true := by
    rw [contains_eq_adjList]
    simpa using huv
  simp only [UndirectedGraph.add_edge, hne, if_false, hens, hc, if_true]

/-- Claim C6: on an undirected graph, for distinct labels `u ≠ v` whose
store satisfies the symmetry invariant, `add_edge(u, v)` succeeds, makes
both `(u, v)` and `(v, u)` members of the edge view, increments the edge
counter by exactly 1 (not 2) when the edge was absent and leaves it
unchanged when present, and a second `add_edge(u, v)` or `add_edge(v, u)`
returns the graph completely unchanged. -/
theorem undirected_add_edge_spec [DecidableEq α] (g : UndirectedGraph α)
    (u v : α) (hsym : symmB g.adj = true) (hne : u ≠ v) :
    ∃ g', g.add_edge u v = .ok g' ∧
      g'.edges.contains (u, v) = true ∧
      g'.edges.contains (v, u) = true ∧
      (g.edges.contains (u, v) = false →
        g'.numberOfEdges = g.numberOfEdges + 1) ∧
      (g.edges.contains (u, v) = true →
        g'.numberOfEdges = g.numberOfEdges) ∧
      g'.add_edge u v = .ok g' ∧ g'.add_edge v u = .ok g' := by
  cases hc : g.edges.contains (u, v) with
  | true =>
    have huv : v ∈ adjList g.adj u := by
      have := hc
      rw [UndirectedGraph.edges] at this
      rw [contains_eq_adjList] at this
      simpa using this
    have hvu : u ∈ adjList g.adj v := symmB_spec _ hsym _ _ huv
    refine ⟨g, add_edge_of_present g u v hne huv hvu, ?_, ?_, ?_, ?_,
      add_edge_of_present g u v hne huv hvu,
      add_edge_of_present g v u (Ne.symm hne) hvu huv⟩
    · exact hc
    · rw [UndirectedGraph.edges, contains_eq_adjList]
      simpa using hvu
    · intro hfalse
      cases hfalse
    · intro _
      rfl
  | false =>
    have hnuv : ¬ v ∈ adjList g.adj u := by
      intro hmem
      rw [UndirectedGraph.edges, contains_eq_adjList] at hc
      simp at hc
      exact hc hmem
    have hcc : EdgeView.contains ⟨ensureNode (ensureNode g.adj u) v, 0⟩
        (u, v) = false := by
      rw [contains_eq_adjList, adjList_ensureNode, adjList_ensureNode]
      simpa using hnuv
    set adj₂ := ensureNode (ensureNode g.adj u) v with hadj₂
    set adj₃ := dset adj₂ u (sadd (adjList adj₂ u) v) with hadj₃
    set adj₄ := dset adj₃ v (sadd (adjList adj₃ v) u) with hadj₄
    have hadj₂u : adjList adj₂ u = adjList g.adj u := by
      rw [hadj₂, adjList_ensureNode, adjList_ensureNode]
    have hadj₂v : adjList adj₂ v = adjList g.adj v := by
      rw [hadj₂, adjList_ensureNode, adjList_ensureNode]
    have hmem₄u : v ∈ adjList adj₄ u := by
      rw [hadj₄, adjList_dset_ne _ _ _ _ hne, hadj₃, adjList_dset_self]
      rw [mem_sadd]
      right
      rfl
    have hmem₄v : u ∈ adjList adj₄ v := by
      rw [hadj₄, adjList_dset_self, mem_sadd]
      right
      rfl
    have hstep : g.add_edge u v = .ok ⟨adj₄, g.numberOfEdges + 1⟩ := by
      simp only [UndirectedGraph.add_edge, hne, if_false, hcc]
      rfl
    refine ⟨⟨adj₄, g.numberOfEdges + 1⟩, hstep, ?_, ?_, ?_, ?_, ?_, ?_⟩
    · rw [UndirectedGraph.edges, contains_eq_adjList]
      simpa using hmem₄u
    · rw [UndirectedGraph.edges, contains_eq_adjList]
      simpa using hmem₄v
    · intro _
      rfl
    · intro habs
      exact Bool.noConfusion habs
    · exact add_edge_of_present _ u v hne hmem₄u hmem₄v
    · exact add_edge_of_present _ v u (Ne.symm hne) hmem₄v hmem₄u

/-- Witness for C6 at a concrete input: the symmetric store with the single
edge between 1 and 2, adding the fresh edge `(2, 3)`. -/
theorem undirected_add_edge_spec_witness :
    symmB ([(1, [2]), (2, [1])] : List (Nat × List Nat)) = true ∧
    (2 : Nat) ≠ 3 ∧
    ∃ g', (UndirectedGraph.mk [(1, [2]), (2, [1])] 1).add_edge 2 3 =
        .ok g' ∧
      g'.edges.contains (2, 3) = true ∧
      g'.edges.contains (3, 2) = true ∧
      ((UndirectedGraph.mk [(1, [2]), (2, [1])] 1).edges.contains (2, 3) =
          false →
        g'.numberOfEdges =
          (UndirectedGraph.mk ([(1, [2]), (2, [1])] : List (Nat × List Nat))
              1).numberOfEdges + 1) ∧
      ((UndirectedGraph.mk [(1, [2]), (2, [1])] 1).edges.contains (2, 3) =
          true →
        g'.numberOfEdges =
          (UndirectedGraph.mk ([(1, [2]), (2, [1])] : List (Nat × List Nat))
              1).numberOfEdges) ∧
      g'.add_edge 2 3 = .ok g' ∧ g'.add_edge 3 2 = .ok g' := by
  refine ⟨by decide, by decide, ?_⟩
  exact undirected_add_edge_spec (UndirectedGraph.mk [(1, [2]), (2, [1])] 1)
    2 3 (by decide) (by decide)

/-- Claim C4, amended: an edges view's `count` is fixed at the moment the
view is obtained rather than tracking later mutations — a view obtained
from the pre-mutation graph reports the pre-mutation counter (`len` of the
old view stays `g.numberOfEdges` and differs from the new count by one
after an edge insertion), while a view obtained after the mutation reports
the current counter.  (Membership and iteration do consult the shared
adjacency store, which in Python is aliased by the view; only the integer
count is captured by value.) -/
theorem view_count_snapshot_semantics [DecidableEq α]
    (g g' : UndirectedGraph α) (u v : α)
    (h : g.add_edge u v = .ok g')
    (hnew : g.edges.contains (u, v) = false) (hne : u ≠ v) :
    g.edges.len = g.numberOfEdges ∧
    g'.edges.len = g'.numberOfEdges ∧
    g'.edges.len = g.edges.len + 1 := by
  refine ⟨rfl, rfl, ?_⟩
  have hcc : EdgeView.contains ⟨ensureNode (ensureNode g.adj u) v, 0⟩
      (u, v) = false := by
    rw [contains_eq_adjList, adjList_ensureNode, adjList_ensureNode]
    rw [UndirectedGraph.edges, contains_eq_adjList] at hnew
    exact hnew
  simp only [UndirectedGraph.add_edge, hne, if_false, hcc] at h
  simp only [Bool.false_eq_true, if_false] at h
  injection h with h
  rw [← h]
  rfl

/-- Witness for C4's amended statement at a concrete input: adding edge
`(1, 2)` to the empty undirected graph. -/
theorem view_count_snapshot_semantics_witness :
    (UndirectedGraph.empty : UndirectedGraph Nat).add_edge 1 2 =
        .ok (UndirectedGraph.mk [(1, [2]), (2, [1])] 1) ∧
    (UndirectedGraph.empty : UndirectedGraph Nat).edges.contains (1, 2) =
        false ∧
    (1 : Nat) ≠ 2 ∧
    ((UndirectedGraph.empty : UndirectedGraph Nat).edges.len =
        (UndirectedGraph.empty : UndirectedGraph Nat).numberOfEdges ∧
      (UndirectedGraph.mk ([(1, [2]), (2, [1])] : List (Nat × List Nat))
            1).edges.len =
        (UndirectedGraph.mk ([(1, [2]), (2, [1])] : List (Nat × List Nat))
            1).numberOfEdges ∧
      (UndirectedGraph.mk ([(1, [2]), (2, [1])] : List (Nat × List Nat))
            1).edges.len =
        (UndirectedGraph.empty : UndirectedGraph Nat).edges.len + 1) := by
  refine ⟨by decide, by decide, by decide, ?_⟩
  exact view_count_snapshot_semantics UndirectedGraph.empty
    (UndirectedGraph.mk [(1, [2]), (2, [1])] 1) 1 2 (by decide) (by decide)
    (by decide)

theorem consistentB_forward [DecidableEq α] (adj back : List (α × List α))
    (h : consistentB adj back = true) (u v : α) (hm : v ∈ adjList adj u) :
    u ∈ adjList back v := by
  have hd := dget?_eq_some_adjList adj u v hm
  have hmem := dget?_mem _ _ _ hd
  simp only [consistentB, Bool.and_eq_true, List.all_eq_true,
    decide_eq_true_eq] at h
  exact h.1 _ hmem v hm

theorem consistentB_backward [DecidableEq α] (adj back : List (α × List α))
    (h : consistentB adj back = true) (u v : α) (hm : v ∈ adjList back u) :
    u ∈ adjList adj v := by
  have hd := dget?_eq_some_adjList back u v hm
  have hmem := dget?_mem _ _ _ hd
  simp only [consistentB, Bool.and_eq_true, List.all_eq_true,
    decide_eq_true_eq] at h
  exact h.2 _ hmem v hm

theorem discardLoop_spec [DecidableEq α] (x : α) (ps : List α)
    (adj : List (α × List α)) (n : Int)
    (h : ∀ p ∈ ps, dmem adj p = true) :
    ∃ adj', discardLoop x ps adj n = .ok (adj', n - ps.length) ∧
      (∀ k, dmem adj' k = dmem adj k) ∧
      (∀ k, k ∉ ps → adjList adj' k = adjList adj k) := by
  induction ps generalizing adj n with
  | nil => exact ⟨adj, by simp [discardLoop], fun k => rfl, fun k _ => rfl⟩
  | cons p rest ih =>
    have hp : dmem adj p = true := h p (List.mem_cons_self p rest)
    obtain ⟨s, hs⟩ := (dmem_true_iff _ _).mp hp
    have hmem : ∀ q, dmem (dset adj p (s.erase x)) q = dmem adj q := by
      intro q
      rw [dmem_dset]
      by_cases hq : q = p
      · subst hq
        simp [hp]
      · simp [hq]
    obtain ⟨adj', h1, h2, h3⟩ :=
      ih (dset adj p (s.erase x)) (n - 1)
        (fun q hq => (hmem q).trans (h q (List.mem_cons_of_mem _ hq)))
    refine ⟨adj', ?_, ?_, ?_⟩
    · simp only [discardLoop, hs, h1]
      have harith : n - 1 - (rest.length : Int) = n - ((p :: rest).length : Int) := by
        simp only [List.length_cons]
        push_cast
        omega
      rw [harith]
    · intro k
      exact (h2 k).trans (hmem k)
    · intro k hk
      have hkp : k ≠ p := fun hc => hk (hc ▸ List.mem_cons_self p rest)
      have hkr : k ∉ rest := fun hc => hk (List.mem_cons_of_mem _ hc)
      rw [h3 k hkr, adjList_dset_ne _ _ _ _ hkp]

theorem dmem_iff_mem_dkeys [DecidableEq α] (d : List (α × β)) (k : α) :
    dmem d k = true ↔ k ∈ dkeys d := by
  induction d with
  | nil => simp [dmem, dget?, dkeys]
  | cons p rest ih =>
    by_cases h : k = p.1
    · subst h
      simp [dmem, dget?, dkeys]
    · simp only [dmem, dget?, h, if_false, dkeys, List.map_cons,
        List.mem_cons] at ih ⊢
      rw [ih]
      simp [h]

/-- Claim C5: on a directed graph satisfying the data-model invariants
(duplicate-free stores and forward/reverse consistency) that contains a
node `x` with a self-loop, `remove_node(x)` succeeds and decrements the
edge counter by exactly the number of distinct edges incident to `x` —
the self-loop `(x, x)` belongs to that set once, so it is decremented by
exactly 1 (not 2), and every other incident edge by 1. -/
theorem directed_remove_node_self_loop_decrement [DecidableEq α]
    (g : DirectedGraph α) (x : α)
    (hva : ∀ p ∈ g.adj, List.Nodup p.2)
    (hvb : ∀ p ∈ g.back_adj, List.Nodup p.2)
    (hcons : consistentB g.adj g.back_adj = true)
    (hloop : x ∈ adjList g.adj x) :
    ∃ g', g.remove_node x = .ok g' ∧
      (x, x) ∈ incidentEdges g.adj x ∧
      g'.numberOfEdges =
        g.numberOfEdges - ((incidentEdges g.adj x).card : Int) := by
  classical
  set preds₀ := adjList g.back_adj x with hpreds₀
  set succs := adjList g.adj x with hsuccs
  have hdx : dmem g.adj x = true := mem_adjList_dmem _ _ _ hloop
  have hbx : x ∈ preds₀ := consistentB_forward _ _ hcons x x hloop
  have hdb : dget? g.back_adj x = some preds₀ :=
    dget?_eq_some_adjList _ _ _ hbx
  have hpnd : preds₀.Nodup := hvb _ (dget?_mem _ _ _ hdb)
  have hsnd : succs.Nodup := by
    have hda : dget? g.adj x = some succs := dget?_eq_some_adjList _ _ _ hloop
    exact hva _ (dget?_mem _ _ _ hda)
  have hkeys : ∀ p ∈ preds₀.erase x,
      dmem (dset g.adj x (succs.erase x)) p = true := by
    intro p hp
    have hpm : p ∈ preds₀ := (List.Nodup.mem_erase_iff hpnd).mp hp |>.2
    have hxm : x ∈ adjList g.adj p := consistentB_backward _ _ hcons x p hpm
    have hq := mem_adjList_dmem _ _ _ hxm
    rw [dmem_dset]
    simp [hq]
  obtain ⟨adj₂, hLoop, hmemeq, hadjeq⟩ :=
    discardLoop_spec x (preds₀.erase x) (dset g.adj x (succs.erase x))
      (g.numberOfEdges - 1) hkeys
  have hxnotp : x ∉ preds₀.erase x := List.Nodup.not_mem_erase hpnd
  have hadj₂x : adjList adj₂ x = succs.erase x := by
    rw [hadjeq x hxnotp, adjList_dset_self]
  have hrun : g.remove_node x =
      .ok ⟨derase adj₂ x, dset g.back_adj x (preds₀.erase x),
        g.numberOfEdges - 1 - ((preds₀.erase x).length : Int) -
          ((succs.erase x).length : Int)⟩ := by
    unfold DirectedGraph.remove_node
    rw [if_neg (by simp [hdx]), hdb]
    simp only [hbx, decide_True, if_true, ← hsuccs]
    rw [hLoop]
    simp only [hadj₂x]
  refine ⟨_, hrun, ?_, ?_⟩
  · apply Finset.mem_union_right
    rw [Finset.mem_image]
    refine ⟨x, ?_, rfl⟩
    rw [List.mem_toFinset]
    exact hloop
  · have hinjA : Function.Injective (fun u : α => (u, x)) := by
      intro a b h
      exact congrArg Prod.fst h
    have hinjB : Function.Injective (fun w : α => (x, w)) := by
      intro a b h
      exact congrArg Prod.snd h
    have hset : (dkeys g.adj).toFinset.filter
        (fun u => u ≠ x ∧ x ∈ adjList g.adj u) = (preds₀.erase x).toFinset := by
      ext u
      simp only [Finset.mem_filter, List.mem_toFinset,
        List.Nodup.mem_erase_iff hpnd]
      constructor
      · rintro ⟨_, hne, hm⟩
        exact ⟨hne, consistentB_forward _ _ hcons u x hm⟩
      · rintro ⟨hne, hmm⟩
        have hx' : x ∈ adjList g.adj u :=
          consistentB_backward _ _ hcons x u hmm
        exact ⟨(dmem_iff_mem_dkeys _ _).mp (mem_adjList_dmem _ _ _ hx'),
          hne, hx'⟩
    have hdisj : Disjoint
        (((dkeys g.adj).toFinset.filter
            (fun u => u ≠ x ∧ x ∈ adjList g.adj u)).image (fun u => (u, x)))
        ((adjList g.adj x).toFinset.image (fun w => (x, w))) := by
      rw [Finset.disjoint_left]
      intro e heA heB
      rw [Finset.mem_image] at heA heB
      obtain ⟨a, haf, hae⟩ := heA
      obtain ⟨b, _, hbe⟩ := heB
      rw [Finset.mem_filter] at haf
      apply haf.2.1
      have : (a, x) = (x, b) := by rw [hae, hbe]
      exact congrArg Prod.fst this
    have hcard : (incidentEdges g.adj x).card =
        (preds₀.erase x).length + succs.length := by
      rw [incidentEdges, Finset.card_union_of_disjoint hdisj,
        Finset.card_image_of_injective _ hinjA,
        Finset.card_image_of_injective _ hinjB, hset,
        List.toFinset_card_of_nodup (List.Nodup.erase x hpnd),
        List.toFinset_card_of_nodup hsnd]
    have hlen2 : (succs.erase x).length + 1 = succs.length :=
      List.length_erase_add_one hloop
    rw [hcard]
    push_cast
    omega

/-- Witness for C5: the spec's scenario — directed edges
`(1,3), (3,1), (5,1), (1,6), (1,1)` — where `remove_node(1)` leaves the
edge counter at exactly 0. -/
theorem directed_remove_node_self_loop_decrement_witness :
    (∀ p ∈ loopScenario.adj, List.Nodup p.2) ∧
    (∀ p ∈ loopScenario.back_adj, List.Nodup p.2) ∧
    consistentB loopScenario.adj loopScenario.back_adj = true ∧
    (1 : Nat) ∈ adjList loopScenario.adj 1 ∧
    ∃ g', loopScenario.remove_node 1 = .ok g' ∧ g'.numberOfEdges = 0 := by
  refine ⟨by decide, by decide, by decide, by decide, ?_⟩
  obtain ⟨g', h1, _, h3⟩ :=
    directed_remove_node_self_loop_decrement loopScenario 1 (by decide)
      (by decide) (by decide) (by decide)
  refine ⟨g', h1, ?_⟩
  rw [h3]
  decide

theorem undirectedIterInner_spec [DecidableEq α] (u : α) (ns : List α)
    (seen : Finset (Sym2 α)) :
    (undirectedIterInner u ns seen).2 =
        seen ∪ ((undirectedIterInner u ns seen).1.map Sym2.mk).toFinset ∧
    ((undirectedIterInner u ns seen).1.map Sym2.mk).Nodup ∧
    (∀ s ∈ (undirectedIterInner u ns seen).1.map Sym2.mk, s ∉ seen) ∧
    (∀ e ∈ (undirectedIterInner u ns seen).1, e.1 = u ∧ e.2 ∈ ns) ∧
    (∀ w ∈ ns, Sym2.mk (u, w) ∈ (undirectedIterInner u ns seen).2) := by
  induction ns generalizing seen with
  | nil =>
    refine ⟨by simp [undirectedIterInner], by simp [undirectedIterInner],
      by simp [undirectedIterInner], by simp [undirectedIterInner], by simp⟩
  | cons v vs ih =>
    by_cases hmem : Sym2.mk (u, v) ∈ seen
    · obtain ⟨ha, hb, hc, hd, he⟩ := ih seen
      have heq : undirectedIterInner u (v :: vs) seen =
          undirectedIterInner u vs seen := by
        simp [undirectedIterInner, hmem]
      rw [heq]
      refine ⟨ha, hb, hc, ?_, ?_⟩
      · intro e hee
        exact ⟨(hd e hee).1, List.mem_cons_of_mem _ (hd e hee).2⟩
      · intro w hw
        rcases List.mem_cons.mp hw with h | h
        · subst h
          rw [ha]
          exact Finset.mem_union_left _ hmem
        · exact he w h
    · obtain ⟨ha, hb, hc, hd, he⟩ := ih (insert (Sym2.mk (u, v)) seen)
      have heq : undirectedIterInner u (v :: vs) seen =
          ((u, v) ::
              (undirectedIterInner u vs (insert (Sym2.mk (u, v)) seen)).1,
            (undirectedIterInner u vs (insert (Sym2.mk (u, v)) seen)).2) := by
        simp [undirectedIterInner, hmem]
      rw [heq]
      refine ⟨?_, ?_, ?_, ?_, ?_⟩
      · rw [ha]
        ext t
        simp only [Finset.mem_union, Finset.mem_insert, List.map_cons,
          List.toFinset_cons, List.mem_toFinset]
        tauto
      · simp only [List.map_cons, List.nodup_cons]
        refine ⟨?_, hb⟩
        intro hcmem
        exact hc _ hcmem (Finset.mem_insert_self _ _)
      · simp only [List.map_cons, List.mem_cons]
        rintro s (rfl | hs)
        · exact hmem
        · intro hseen
          exact hc s hs (Finset.mem_insert_of_mem hseen)
      · simp only [List.mem_cons]
        rintro e (rfl | hee)
        · exact ⟨rfl, Or.inl rfl⟩
        · exact ⟨(hd e hee).1, Or.inr (hd e hee).2⟩
      · intro w hw
        rcases List.mem_cons.mp hw with h | h
        · subst h
          rw [ha]
          exact Finset.mem_union_left _ (Finset.mem_insert_self _ _)
        · exact he w h

theorem undirectedIterGo_spec [DecidableEq α] (adjL : List (α × List α))
    (seen : Finset (Sym2 α)) :
    ((undirectedIterGo adjL seen).map Sym2.mk).Nodup ∧
    (∀ s ∈ (undirectedIterGo adjL seen).map Sym2.mk, s ∉ seen) ∧
    (∀ e ∈ undirectedIterGo adjL seen, ∃ p ∈ adjL, e.1 = p.1 ∧ e.2 ∈ p.2) ∧
    (∀ p ∈ adjL, ∀ w ∈ p.2, Sym2.mk (p.1, w) ∈ seen ∨
      Sym2.mk (p.1, w) ∈ (undirectedIterGo adjL seen).map Sym2.mk) := by
  induction adjL generalizing seen with
  | nil =>
    refine ⟨by simp [undirectedIterGo], by simp [undirectedIterGo],
      by simp [undirectedIterGo], by simp⟩
  | cons p rest ih =>
    obtain ⟨ia, ib, ic, id', ie⟩ := undirectedIterInner_spec p.1 p.2 seen
    obtain ⟨ga, gb, gc, gd⟩ := ih (undirectedIterInner p.1 p.2 seen).2
    have heq : undirectedIterGo (p :: rest) seen =
        (undirectedIterInner p.1 p.2 seen).1 ++
          undirectedIterGo rest (undirectedIterInner p.1 p.2 seen).2 := by
      conv_lhs => rw [show p = (p.1, p.2) from rfl]
      simp [undirectedIterGo]
    rw [heq]
    have hrestNotInner : ∀ s ∈ (undirectedIterGo rest
        (undirectedIterInner p.1 p.2 seen).2).map Sym2.mk,
        s ∉ ((undirectedIterInner p.1 p.2 seen).1.map Sym2.mk) ∧ s ∉ seen := by
      intro s hs
      have := gb s hs
      rw [ia] at this
      simp only [Finset.mem_union, List.mem_toFinset] at this
      push_neg at this
      exact ⟨this.2, this.1⟩
    refine ⟨?_, ?_, ?_, ?_⟩
    · rw [List.map_append, List.nodup_append]
      refine ⟨ib, ga, ?_⟩
      intro s hs hs'
      exact (hrestNotInner s hs').1 hs
    · rw [List.map_append]
      intro s hs
      rcases List.mem_append.mp hs with h | h
      · exact ic s h
      · exact (hrestNotInner s h).2
    · intro e hee
      rcases List.mem_append.mp hee with h | h
      · exact ⟨p, List.mem_cons_self p rest, (id' e h).1, (id' e h).2⟩
      · obtain ⟨q, hq, h1, h2⟩ := gc e h
        exact ⟨q, List.mem_cons_of_mem _ hq, h1, h2⟩
    · intro q hq w hw
      rcases List.mem_cons.mp hq with h | h
      · subst h
        have := ie w hw
        rw [ia] at this
        simp only [Finset.mem_union, List.mem_toFinset] at this
        rcases this with h' | h'
        · exact Or.inl h'
        · right
          rw [List.map_append, List.mem_append]
          exact Or.inl h'
      · rcases gd q h w hw with h' | h'
        · rw [ia] at h'
          simp only [Finset.mem_union, List.mem_toFinset] at h'
          rcases h' with h'' | h''
          · exact Or.inl h''
          · right
            rw [List.map_append, List.mem_append]
            exact Or.inl h''
        · right
          rw [List.map_append, List.mem_append]
          exact Or.inr h'

theorem dget?_of_mem_nodupKeys [DecidableEq α] (d : List (α × β)) (k : α)
    (s : β) (hk : (dkeys d).Nodup) (h : (k, s) ∈ d) : dget? d k = some s := by
  induction d with
  | nil => cases h
  | cons p rest ih =>
    rcases List.mem_cons.mp h with heq | hmem
    · rw [← heq]
      simp [dget?]
    · have hkr : k ∈ dkeys rest := by
        rw [dkeys, List.mem_map]
        exact ⟨(k, s), hmem, rfl⟩
      have hne : k ≠ p.1 := by
        intro hc
        rw [dkeys, List.map_cons, List.nodup_cons] at hk
        exact hk.1 (hc ▸ hkr)
      have hk' : (dkeys rest).Nodup := by
        rw [dkeys, List.map_cons, List.nodup_cons] at hk
        exact hk.2
      simp only [dget?, hne, if_false]
      exact ih hk' hmem

theorem directedIterList_mem [DecidableEq α] (adjL : List (α × List α))
    (hk : (dkeys adjL).Nodup) (u v : α) :
    (u, v) ∈ (adjL.map (fun p => p.2.map (fun w => (p.1, w)))).flatten ↔
      v ∈ adjList adjL u := by
  rw [List.mem_flatten]
  constructor
  · rintro ⟨l, hl, hml⟩
    rw [List.mem_map] at hl
    obtain ⟨p, hp, rfl⟩ := hl
    rw [List.mem_map] at hml
    obtain ⟨w, hw, hwe⟩ := hml
    have h1 : p.1 = u := congrArg Prod.fst hwe
    have h2 : w = v := congrArg Prod.snd hwe
    subst h2
    have : dget? adjL u = some p.2 := by
      rw [← h1]
      exact dget?_of_mem_nodupKeys _ _ _ hk (by simpa using hp)
    rw [adjList, this]
    exact hw
  · intro hm
    have hd : dget? adjL u = some (adjList adjL u) :=
      dget?_eq_some_adjList _ _ _ hm
    have hmem : (u, adjList adjL u) ∈ adjL := dget?_mem _ _ _ hd
    refine ⟨(adjList adjL u).map (fun w => (u, w)), ?_, ?_⟩
    · rw [List.mem_map]
      exact ⟨(u, adjList adjL u), hmem, rfl⟩
    · rw [List.mem_map]
      exact ⟨v, hm, rfl⟩

theorem directedIterList_nodup [DecidableEq α] (adjL : List (α × List α))
    (hk : (dkeys adjL).Nodup) (hv : ∀ p ∈ adjL, List.Nodup p.2) :
    ((adjL.map (fun p => p.2.map (fun w => (p.1, w)))).flatten).Nodup := by
  induction adjL with
  | nil => simp
  | cons p rest ih
  =>
    simp only [List.map_cons, List.flatten_cons]
    rw [List.nodup_append]
    have hk' : (dkeys rest).Nodup := by
      rw [dkeys, List.map_cons, List.nodup_cons] at hk
      exact hk.2
    have hp1 : p.1 ∉ dkeys rest := by
      rw [dkeys, List.map_cons, List.nodup_cons] at hk
      exact hk.1
    refine ⟨?_, ih hk' (fun q hq => hv q (List.mem_cons_of_mem _ hq)), ?_⟩
    · exact (hv p (List.mem_cons_self p rest)).map
        (fun a b h => congrArg Prod.snd h)
    · intro e hee her
      rw [List.mem_map] at hee
      obtain ⟨w, _, rfl⟩ := hee
      rw [List.mem_flatten] at her
      obtain ⟨l, hl, hml⟩ := her
      rw [List.mem_map] at hl
      obtain ⟨q, hq, rfl⟩ := hl
      rw [List.mem_map] at hml
      obtain ⟨w', _, hwe⟩ := hml
      have : q.1 = p.1 := ((Prod.mk.injEq _ _ _ _).mp hwe).1
      apply hp1
      rw [← this, dkeys, List.mem_map]
      exact ⟨q, hq, rfl⟩

/-- Claim C7: iterating an edges view yields each edge of the graph exactly
once.  For an undirected view over a duplicate-free store, the list of
unordered identities of the yielded pairs is duplicate-free (so the
iteration never yields both `(u, v)` and `(v, u)` for the same edge and
never repeats a pair), every stored edge is yielded in one of its two
orientations, and every yielded pair is a stored edge.  For a directed
view, the yielded list is duplicate-free and contains `(u, v)` exactly when
`v ∈ adj[u]`.  The store is universally quantified, so every dict/set
iteration order Python may produce is an instance. -/
theorem edge_iteration_yields_each_edge_once [DecidableEq α]
    (adjL : List (α × List α)) (n : Int) (u v : α)
    (hk : (dkeys adjL).Nodup)
    (hv : ∀ p ∈ adjL, List.Nodup p.2) :
    ((EdgeView.mk adjL n).undirectedIter.map Sym2.mk).Nodup ∧
    (v ∈ adjList adjL u →
      (u, v) ∈ (EdgeView.mk adjL n).undirectedIter ∨
      (v, u) ∈ (EdgeView.mk adjL n).undirectedIter) ∧
    (∀ e ∈ (EdgeView.mk adjL n).undirectedIter, e.2 ∈ adjList adjL e.1) ∧
    (EdgeView.mk adjL n).directedIter.Nodup ∧
    ((u, v) ∈ (EdgeView.mk adjL n).directedIter ↔ v ∈ adjList adjL u) := by
  obtain ⟨ga, _, gc, gd⟩ := undirectedIterGo_spec adjL (∅ : Finset (Sym2 α))
  refine ⟨ga, ?_, ?_, directedIterList_nodup adjL hk hv,
    directedIterList_mem adjL hk u v⟩
  · intro hm
    have hd : dget? adjL u = some (adjList adjL u) :=
      dget?_eq_some_adjList _ _ _ hm
    have hmem : (u, adjList adjL u) ∈ adjL := dget?_mem _ _ _ hd
    have := gd (u, adjList adjL u) hmem v hm
    rcases this with h | h
    · cases Finset.not_mem_empty _ h
    · rw [List.mem_map] at h
      obtain ⟨e, he, hse⟩ := h
      rcases Sym2.mk_eq_mk_iff.mp hse with h' | h'
      · exact Or.inl (h' ▸ he)
      · have : e = (v, u) := by
          have h2 : e = Prod.swap (u, v) := h'
          exact h2
        exact Or.inr (this ▸ he)
  · intro e hee
    obtain ⟨p, hp, h1, h2⟩ := gc e hee
    have : dget? adjL e.1 = some p.2 := by
      rw [h1]
      exact dget?_of_mem_nodupKeys _ _ _ hk (by simpa using hp)
    rw [adjList, this]
    exact h2

/-- Witness for C7 at a concrete input: the symmetric two-node store, as
both an undirected and a directed view, for the edge between 1 and 2. -/
theorem edge_iteration_yields_each_edge_once_witness :
    (dkeys ([(1, [2]), (2, [1])] : List (Nat × List Nat))).Nodup ∧
    (∀ p ∈ ([(1, [2]), (2, [1])] : List (Nat × List Nat)),
      List.Nodup p.2) ∧
    (((EdgeView.mk ([(1, [2]), (2, [1])] : List (Nat × List Nat))
          1).undirectedIter.map Sym2.mk).Nodup ∧
      ((2 : Nat) ∈ adjList [(1, [2]), (2, [1])] 1 →
        ((1 : Nat), (2 : Nat)) ∈
            (EdgeView.mk ([(1, [2]), (2, [1])] : List (Nat × List Nat))
              1).undirectedIter ∨
          ((2 : Nat), (1 : Nat)) ∈
            (EdgeView.mk ([(1, [2]), (2, [1])] : List (Nat × List Nat))
              1).undirectedIter) ∧
      (∀ e ∈ (EdgeView.mk ([(1, [2]), (2, [1])] : List (Nat × List Nat))
          1).undirectedIter, e.2 ∈ adjList [(1, [2]), (2, [1])] e.1) ∧
      (EdgeView.mk ([(1, [2]), (2, [1])] : List (Nat × List Nat))
          1).directedIter.Nodup ∧
      (((1 : Nat), (2 : Nat)) ∈
          (EdgeView.mk ([(1, [2]), (2, [1])] : List (Nat × List Nat))
            1).directedIter ↔
        (2 : Nat) ∈ adjList [(1, [2]), (2, [1])] 1)) := by
  refine ⟨by decide, by decide, ?_⟩
  exact edge_iteration_yields_each_edge_once [(1, [2]), (2, [1])] 1 1 2
    (by decide) (by decide)

end DSC40
